import Mathlib

/-!
Verification of the session-analytics aggregator, the session-list
pagination walker, and the room-list enrichment of the backend relay.
JavaScript numbers are modelled as exact rationals, timestamps as epoch
milliseconds, and JavaScript objects as association lists in key insertion
order.
-/

/-- Math.round as in ECMAScript: the closest integer, with half-values
rounding toward positive infinity. -/
def jsMathRound (q : ℚ) : ℤ := Int.floor (q + 1/2)

/-- Decimal digit characters of a natural number, most significant digit
first; the recursion is on a fuel argument that dominates the digit count. -/
def natCharsAux : Nat → Nat → List Char
  | 0, _ => []
  | fuel + 1, n =>
    if n = 0 then [] else natCharsAux fuel (n / 10) ++ [Nat.digitChar (n % 10)]

/-- Decimal rendering of a natural number, as JavaScript renders integers. -/
def natChars (n : Nat) : List Char := if n = 0 then ['0'] else natCharsAux n n

/-- The scaled value used by toFixed(2): the integer n such that n / 100 is
closest to the absolute value of q, half-values rounding up, as specified for
the ECMAScript Number.prototype.toFixed algorithm. -/
def fixedN (q : ℚ) : Nat := (Int.floor (|q| * 100 + 1/2)).toNat

/-- Character sequence produced by the JavaScript call x.toFixed(2): optional
minus sign, integer part, a dot, and exactly two fraction digits. -/
def toFixed2Chars (q : ℚ) : List Char :=
  (if q < 0 then ['-'] else []) ++ natChars (fixedN q / 100)
    ++ '.' :: Nat.digitChar (fixedN q / 10 % 10) :: [Nat.digitChar (fixedN q % 10)]

/-- The JavaScript call x.toFixed(2) on a number. -/
def toFixed2 (q : ℚ) : String := String.mk (toFixed2Chars q)

/-- JavaScript number-to-string conversion, exact for multiples of 1/100,
which are the only values converted in this code: trailing zero fraction
digits are dropped, an integral value prints with no dot. -/
def jsNumToString (q : ℚ) : String :=
  let n : Nat := (Int.floor (|q| * 100)).toNat
  String.mk ((if q < 0 then ['-'] else []) ++ natChars (n / 100) ++
    (if n % 100 = 0 then []
     else if n % 10 = 0 then ['.', Nat.digitChar (n / 10 % 10)]
     else ['.', Nat.digitChar (n / 10 % 10), Nat.digitChar (n % 10)]))

/-- A JavaScript value that is either a number or a string: the value space of
the duration field once the analytics reduce mixes objects and numbers. -/
inductive JSVal : Type
  | num : ℚ → JSVal
  | str : String → JSVal
deriving DecidableEq

/-- The JavaScript binary + on number-or-string values: two numbers add, and
a string operand turns the operation into string concatenation, converting
the number operand to its string form. -/
def jsValAdd : JSVal → JSVal → JSVal
  | .num a, .num b => .num (a + b)
  | .num a, .str b => .str (jsNumToString a ++ b)
  | .str a, .num b => .str (a ++ jsNumToString b)
  | .str a, .str b => .str (a ++ b)

/-- The call v.toFixed(2) on a JavaScript value: defined on numbers; on a
string there is no such method and a TypeError is thrown, modelled as none. -/
def jsToFixed2 : JSVal → Option String
  | .num q => some (toFixed2 q)
  | .str _ => none

/-- Checks that a character sequence has a dot followed by exactly two decimal
digit characters and nothing else, scanning to the first dot. -/
def twoDecimalCheck : List Char → Bool
  | [] => false
  | c :: rest =>
    if c = '.' then rest.length == 2 && rest.all Char.isDigit
    else twoDecimalCheck rest

/-- A string renders a numeric value with exactly two decimal digits. -/
def hasTwoDecimalDigits (s : String) : Bool := twoDecimalCheck s.data

/-- JavaScript object property read on an object modelled as an association
list in key insertion order: the value at the key, none for undefined. -/
def objGet {β : Type} (o : List (String × β)) (k : String) : Option β :=
  match o with
  | [] => none
  | (a, b) :: es => if a = k then some b else objGet es k

/-- JavaScript object field assignment on an object modelled as an
association list recording key insertion order: an existing key keeps its
position and gets the new value, a new key is appended at the end. The own
property enumeration order that Object.values observes, with array-index
keys first in ascending numeric order, is applied separately by
jsOrderedEntries. -/
def objUpd {β : Type} (o : List (String × β)) (k : String) (v : β) :
    List (String × β) :=
  if (objGet o k).isSome then
    o.map (fun p => if p.1 = k then (k, v) else p)
  else o ++ [(k, v)]

/-- One peer record of a session; timestamps are epoch milliseconds as
obtained by the moment library from the upstream timestamps. -/
structure Peer : Type where
  user_id : String
  name : String
  joined_at : ℤ
  left_at : ℤ
deriving DecidableEq

/-- One session record; peers holds Object.values of the peer mapping in its
key insertion order. -/
structure Session : Type where
  peers : List Peer
  created_at : ℤ
  updated_at : ℤ
deriving DecidableEq

/-- The upstream response to GET /sessions for the analytics endpoint: the
session array plus the remaining envelope fields, kept opaque. -/
structure SessionListResponse : Type where
  data : List Session
  rest : List (String × String)
deriving DecidableEq

/-- moment.duration(moment(b).diff(moment(a))).asMinutes(): the millisecond
difference divided by 60000. -/
def msToMinutes (ms : ℤ) : ℚ := (ms : ℚ) / 60000

/-- The duration variable of the reduce: minutes from joined_at to left_at. -/
def peerMinutes (p : Peer) : ℚ := msToMinutes (p.left_at - p.joined_at)

/-- roundedDuration = Math.round(duration * 100) / 100. -/
def peerRoundedDuration (p : Peer) : ℚ :=
  (jsMathRound (peerMinutes p * 100) : ℚ) / 100

/-- One entry of the detailsByUser accumulator object. -/
structure UserEntry : Type where
  name : String
  user_id : String
  duration : JSVal
deriving DecidableEq

/-- The expression (acc[uid] || 0) + roundedDuration as JavaScript evaluates
it: with uid absent, undefined is falsy, the left operand is 0 and the sum is
a number; with uid present the left operand is the stored entry object, which
is truthy, and object + number coerces the object to the string
[object Object] and concatenates the string form of the number. -/
def jsOrZeroPlus (prev : Option UserEntry) (rounded : ℚ) : JSVal :=
  match prev with
  | none => .num (0 + rounded)
  | some _ => .str ("[object Object]" ++ jsNumToString rounded)

/-- One step of the detailsByUser reduce: acc[peer.user_id] is assigned an
object with the peer name, the peer user_id, and duration
(acc[peer.user_id] || 0) + roundedDuration. -/
def aggStep (acc : List (String × UserEntry)) (p : Peer) :
    List (String × UserEntry) :=
  objUpd acc p.user_id
    { name := p.name
      user_id := p.user_id
      duration := jsOrZeroPlus (objGet acc p.user_id) (peerRoundedDuration p) }

/-- The keyed object detailsByUser built by the reduce over the peer list. -/
def detailsByUser (peers : List Peer) : List (String × UserEntry) :=
  peers.foldl aggStep []

/-- The numeric value of an ECMAScript array-index property key: a canonical
decimal string (no leading zero except the string 0 itself) whose value is
below 2 to the 32 minus 1; other keys give none. -/
def arrayIndexVal (s : String) : Option Nat :=
  match s.toNat? with
  | none => none
  | some n =>
    if (s = "0" ∨ s.startsWith "0" = false) ∧ n < 4294967295 then some n
    else none

/-- Insertion into a list of numerically keyed entries, keeping ascending
numeric key order. -/
def insertByIdx {β : Type} (p : Nat × β) : List (Nat × β) → List (Nat × β)
  | [] => [p]
  | q :: qs => if p.1 < q.1 then p :: q :: qs else q :: insertByIdx p qs

/-- Insertion sort of numerically keyed entries by ascending key. -/
def sortByIdx {β : Type} : List (Nat × β) → List (Nat × β)
  | [] => []
  | p :: ps => insertByIdx p (sortByIdx ps)

/-- Own-property enumeration order of a JavaScript object, as observed by
Object.values and Object.keys: entries whose key is an array-index string
come first in ascending numeric order, followed by the remaining entries in
key insertion order. -/
def jsOrderedEntries {β : Type} (o : List (String × β)) : List (String × β) :=
  (sortByIdx (o.filterMap fun p => (arrayIndexVal p.1).map (fun n => (n, p)))).map
      Prod.snd
    ++ o.filter (fun p => (arrayIndexVal p.1).isNone)

/-- Object.values: the values of an object in own-property enumeration
order. -/
def jsObjectValues {β : Type} (o : List (String × β)) : List β :=
  (jsOrderedEntries o).map Prod.snd

/-- The own-property enumeration order on a list of keys: array-index keys
first in ascending numeric order, then the remaining keys in list order. -/
def jsKeyOrder (ks : List String) : List String :=
  (sortByIdx (ks.filterMap fun k => (arrayIndexVal k).map (fun n => (n, k)))).map
      Prod.snd
    ++ ks.filter (fun k => (arrayIndexVal k).isNone)

/-- result = Object.values(detailsByUser): the summary entries in the own
property enumeration order of the accumulator object. -/
def userDurationList (peers : List Peer) : List UserEntry :=
  jsObjectValues (detailsByUser peers)

/-- result.reduce((a, b) => a + b.duration, 0). -/
def totalPeerDurationVal (entries : List UserEntry) : JSVal :=
  entries.foldl (fun a b => jsValAdd a b.duration) (.num 0)

/-- The JSON payload of a successful analytics response. -/
structure AnalyticsPayload : Type where
  user_duration_list : List UserEntry
  session_duration : String
  total_peer_duration : String
deriving DecidableEq

/-- Outcome of the analytics endpoint: HTTP 200 with a payload, HTTP 404, or
HTTP 500 from a thrown error. -/
inductive AnalyticsResult : Type
  | ok : AnalyticsPayload → AnalyticsResult
  | notFound : AnalyticsResult
  | serverError : AnalyticsResult
deriving DecidableEq

/-- The GET /session-analytics-by-room handler after the upstream GET
/sessions succeeded: 404 when the session array is empty, otherwise the
aggregation over the first session; calling toFixed on a non-number total
throws, which the surrounding try reports as HTTP 500. -/
def sessionAnalyticsHandler (resp : SessionListResponse) : AnalyticsResult :=
  match resp.data with
  | [] => .notFound
  | sessionData :: _ =>
    let result := userDurationList sessionData.peers
    match jsToFixed2 (totalPeerDurationVal result) with
    | none => .serverError
    | some totalDuration =>
      .ok { user_duration_list := result
            session_duration :=
              toFixed2 (msToMinutes (sessionData.updated_at - sessionData.created_at))
            total_peer_duration := totalDuration }

/-- One upstream page for the session-list walker: the optional item array
and the continuation token. -/
structure PageResp (α : Type) : Type where
  data : Option (List α)
  last : Option String
deriving DecidableEq

/-- The value of the allSessions variable: initially an array, and a number
after the result of push is assigned back to it. -/
inductive JSAcc (α : Type) : Type
  | arr : List (List α) → JSAcc α
  | num : Nat → JSAcc α
deriving DecidableEq

/-- Outcome of the walker loop: normal exit with the final accumulator value
and the number of upstream requests issued, a thrown TypeError with the number
of requests issued, or exhaustion of the modelling fuel. -/
inductive WalkResult (α : Type) : Type
  | done : JSAcc α → Nat → WalkResult α
  | typeError : Nat → WalkResult α
  | fuelOut : WalkResult α
deriving DecidableEq

/-- allSessions = allSessions.push(items): on an array, push appends and
returns the new length, and the assignment replaces the array by that number;
on a number there is no push method and a TypeError is thrown. -/
def jsPushAssign {α : Type} : JSAcc α → List α → Option (JSAcc α)
  | .arr xs, _ => some (.num (xs.length + 1))
  | .num _, _ => none

/-- The while loop of GET /session-list-by-room. The upstream is an oracle
keyed by request index; the filters built from room_id, limit 20 and the
cursor only address the upstream and do not appear in the state. Each
iteration: fetch a page, break when its data is absent or empty, execute
allSessions = allSessions.push(data), break when the page is shorter than 20,
else continue with the advertised continuation token as cursor. -/
def walkLoop {α : Type} (oracle : Nat → PageResp α) :
    Nat → Nat → JSAcc α → Option String → WalkResult α
  | 0, _, _, _ => .fuelOut
  | fuel + 1, i, acc, _last =>
    match (oracle i).data with
    | none => .done acc (i + 1)
    | some [] => .done acc (i + 1)
    | some (x :: xs) =>
      match jsPushAssign acc (x :: xs) with
      | none => .typeError (i + 1)
      | some acc2 =>
        if (x :: xs).length < 20 then .done acc2 (i + 1)
        else walkLoop oracle fuel (i + 1) acc2 (oracle i).last

/-- HTTP outcome of GET /session-list-by-room: res.json(allSessions) on
normal loop exit, HTTP 500 when the loop throws; indeterminate marks fuel
exhaustion of the model. -/
inductive ListResponse (α : Type) : Type
  | ok : JSAcc α → ListResponse α
  | serverError : ListResponse α
  | indeterminate : ListResponse α
deriving DecidableEq

/-- The GET /session-list-by-room handler, starting the loop from the empty
array and no cursor. -/
def sessionListHandler {α : Type} (oracle : Nat → PageResp α) (fuel : Nat) :
    ListResponse α :=
  match walkLoop oracle fuel 0 (.arr []) none with
  | .done v _ => .ok v
  | .typeError _ => .serverError
  | .fuelOut => .indeterminate

/-- Number of items of a page, an absent array counting as zero. -/
def pageLen {α : Type} (p : PageResp α) : Nat :=
  match p.data with
  | none => 0
  | some l => l.length

/-- Requests issued according to a walker outcome. -/
def reqsOf {α : Type} : WalkResult α → Nat
  | .done _ r => r
  | .typeError r => r
  | .fuelOut => 0

/-- Total number of items on the first n upstream pages. -/
def pagesTotal {α : Type} (oracle : Nat → PageResp α) : Nat → Nat
  | 0 => 0
  | n + 1 => pagesTotal oracle n + pageLen (oracle n)

/-- One room code returned by the upstream room-codes endpoint: its role and
the rest of its payload, kept opaque. -/
structure RoomCode : Type where
  role : String
  payload : String
deriving DecidableEq

/-- A field value of a room object: an opaque original value, a list of room
codes, or nothing beyond what the constructors carry. -/
inductive FieldVal : Type
  | prim : String → FieldVal
  | codes : List RoomCode → FieldVal
deriving DecidableEq

/-- A room object: an association list of fields in key insertion order. -/
abbrev Room : Type := List (String × FieldVal)

/-- The upstream response to GET /room-codes/room/id, with an optional data
array. -/
structure CodesResp : Type where
  data : Option (List RoomCode)
deriving DecidableEq

/-- Enrichment of one room from its settled sub-request: on success, filter
the returned codes to role guest and attach them as guest_room_codes via
object spread; on failure, attach empty guest_room_codes plus the
error_fetching_codes marker. -/
def enrichRoom (room : Room) (sub : Option CodesResp) : Room :=
  match sub with
  | some resp =>
    let guestCodes : List RoomCode :=
      match resp.data with
      | some cs => cs.filter (fun c => c.role == "guest")
      | none => []
    objUpd room "guest_room_codes" (.codes guestCodes)
  | none =>
    objUpd (objUpd room "guest_room_codes" (.codes []))
      "error_fetching_codes" (.prim "Failed to retrieve room codes")

/-- The fan-out map over the room list; the sub-request oracle is keyed by
the position of the room, one independent sub-request per element. -/
def enrichRoomsAux (sub : Nat → Option CodesResp) :
    Nat → List Room → List Room
  | _, [] => []
  | i, r :: rs => enrichRoom r (sub i) :: enrichRoomsAux sub (i + 1) rs

/-- Promise.all(roomListData.data.map(...)): the enriched room list, in input
order. -/
def enrichRooms (rooms : List Room) (sub : Nat → Option CodesResp) :
    List Room :=
  enrichRoomsAux sub 0 rooms

/-- The envelope of the upstream GET /rooms response: the room array plus the
remaining fields, kept opaque. -/
structure RoomsEnvelope : Type where
  data : Option (List Room)
  rest : List (String × String)
deriving DecidableEq

/-- The body built by GET /list-rooms from a fetched envelope: with a
non-empty room array, the envelope spread with data replaced by the enriched
rooms; otherwise the original envelope unchanged. -/
def listRoomsHandler (env : RoomsEnvelope) (sub : Nat → Option CodesResp) :
    RoomsEnvelope :=
  match env.data with
  | some rooms =>
    if 0 < rooms.length then { env with data := some (enrichRooms rooms sub) }
    else env
  | none => env

/-- HTTP outcome of GET /list-rooms. -/
inductive RoomsResult : Type
  | ok : RoomsEnvelope → RoomsResult
  | serverError : RoomsResult
deriving DecidableEq

/-- The GET /list-rooms endpoint: HTTP 500 only when the base GET /rooms
call failed; per-item sub-request failures are caught inside the map and
never reject the whole response. -/
def listRoomsEndpoint (fetched : Option RoomsEnvelope)
    (sub : Nat → Option CodesResp) : RoomsResult :=
  match fetched with
  | some env => .ok (listRoomsHandler env sub)
  | none => .serverError

/-- Written from the words of the spec, for comparison with the code:
rounding to 2 decimal places with half-values away from zero. -/
def roundHalfAwayFromZero2 (q : ℚ) : ℚ :=
  if 0 ≤ q then (Int.floor (q * 100 + 1/2) : ℚ) / 100
  else -((Int.floor (-q * 100 + 1/2) : ℚ) / 100)

/-- Written from the words of the spec, for comparison with the code:
rounding to 2 decimal places with half-values toward positive infinity. -/
def roundHalfUp2 (q : ℚ) : ℚ := (Int.floor (q * 100 + 1/2) : ℚ) / 100

/-- The identifiers of l not in seen, in order of first occurrence. -/
def addNew (seen : List String) : List String → List String
  | [] => []
  | x :: xs =>
    if x ∈ seen then addNew seen xs
    else x :: addNew (seen ++ [x]) xs

/-- The distinct identifiers of a list in order of first occurrence. -/
def firstOccurrences (l : List String) : List String := addNew [] l

/-- Unrolled form of the first two iterations of the walker loop; because the
push assignment turns the accumulator into a number after the first non-empty
page, no run ever reaches a third iteration. -/
def walkTwoSteps {α : Type} (oracle : Nat → PageResp α) : WalkResult α :=
  match (oracle 0).data with
  | none => .done (.arr []) 1
  | some [] => .done (.arr []) 1
  | some (x :: xs) =>
    if (x :: xs).length < 20 then .done (.num 1) 1
    else
      match (oracle 1).data with
      | none => .done (.num 1) 2
      | some [] => .done (.num 1) 2
      | some (_ :: _) => .typeError 2

/-- Fixture for the duplicate-identity session: 5.005 minutes. -/
def peerA : Peer :=
  { user_id := "u1", name := "alice", joined_at := 0, left_at := 300300 }

/-- Fixture for the duplicate-identity session: 2.0 minutes, same user. -/
def peerB : Peer :=
  { user_id := "u1", name := "alice2", joined_at := 0, left_at := 120000 }

/-- Fixture session holding two peer entries for the same user. -/
def sessionC1 : Session :=
  { peers := [peerA, peerB], created_at := 0, updated_at := 720000 }

/-- Fixture upstream response holding the duplicate-identity session. -/
def respC1 : SessionListResponse := { data := [sessionC1], rest := [] }

/-- Fixture peer with left_at before joined_at: duration -2.005 minutes. -/
def peerNeg : Peer :=
  { user_id := "u2", name := "bob", joined_at := 120300, left_at := 0 }

/-- Fixture upstream response with an empty session array. -/
def respC5 : SessionListResponse := { data := [], rest := [] }

/-- Fixture peer for the formatting claim: 5.005 minutes. -/
def peerW : Peer :=
  { user_id := "u3", name := "carol", joined_at := 0, left_at := 300300 }

/-- Fixture upstream response with one single-peer session lasting exactly
12 minutes. -/
def respC7 : SessionListResponse :=
  { data := [{ peers := [peerW], created_at := 0, updated_at := 720000 }]
    rest := [] }

/-- Payload the analytics endpoint produces for respC7. -/
def payloadC7 : AnalyticsPayload :=
  { user_duration_list :=
      [{ name := "carol", user_id := "u3", duration := .num (501 / 100) }]
    session_duration := "12.00"
    total_peer_duration := "5.01" }

/-- Fixture peer whose user_id is the array-index string 1, one minute. -/
def peerIdx1 : Peer :=
  { user_id := "1", name := "n1", joined_at := 0, left_at := 60000 }

/-- Fixture peer whose user_id is the array-index string 0, one minute. -/
def peerIdx0 : Peer :=
  { user_id := "0", name := "n0", joined_at := 0, left_at := 60000 }

/-- Fixture upstream whose every page is one short page with one item. -/
def oracleC2short : Nat → PageResp Nat := fun _ => { data := some [7], last := none }

/-- Fixture upstream with one full page of 20 items, then short pages. -/
def oracleC2full : Nat → PageResp Nat := fun i =>
  if i = 0 then { data := some (List.replicate 20 0), last := some "cursor" }
  else { data := some [0], last := none }

/-- Fixture upstream with two full pages of 20 items, then short pages. -/
def oracleC2two : Nat → PageResp Nat := fun i =>
  if i ≤ 1 then { data := some (List.replicate 20 0), last := some "cursor" }
  else { data := some [0], last := none }

/-- Fixture upstream with a single one-item page, for the termination
witness. -/
def oracleC6 : Nat → PageResp Unit := fun _ => { data := some [()], last := none }

/-- Fixture upstream with a single one-item page, for the push-bug witness. -/
def oracleC8 : Nat → PageResp Unit := fun _ => { data := some [()], last := none }

/-- Fixture room with two fields. -/
def roomX : Room := [("id", .prim "r1"), ("name", .prim "First room")]

/-- Fixture room with one field. -/
def roomY : Room := [("id", .prim "r2")]

/-- Fixture sub-request oracle failing exactly at position 0. -/
def subF : Nat → Option CodesResp := fun j =>
  if j = 0 then none
  else some { data := some [{ role := "guest", payload := "code1" }] }

/-- Fixture sub-request oracle succeeding everywhere. -/
def subG : Nat → Option CodesResp := fun _ =>
  some { data := some [{ role := "guest", payload := "code1" }] }

/-- Fixture room for the frame witness. -/
def roomZ : Room := [("id", .prim "r9"), ("region", .prim "eu")]

/-- Fixture sub-request oracle for the frame witness: fails everywhere. -/
def subH : Nat → Option CodesResp := fun _ => none

theorem natCharsAux_mem {fuel n : Nat} {c : Char}
    (h : c ∈ natCharsAux fuel n) : ∃ d, d < 10 ∧ c = Nat.digitChar d := by
  induction fuel generalizing n with
  | zero => simp [natCharsAux] at h
  | succ fuel ih =>
    rw [natCharsAux] at h
    by_cases hn : n = 0
    · simp [hn] at h
    · rw [if_neg hn, List.mem_append] at h
      rcases h with h | h
      · exact ih h
      · simp only [List.mem_singleton] at h
        exact ⟨n % 10, Nat.mod_lt _ (by decide), h⟩

theorem natChars_mem {n : Nat} {c : Char} (h : c ∈ natChars n) :
    ∃ d, d < 10 ∧ c = Nat.digitChar d := by
  rw [natChars] at h
  by_cases hn : n = 0
  · rw [if_pos hn] at h
    simp only [List.mem_singleton] at h
    exact ⟨0, by decide, h⟩
  · exact natCharsAux_mem (by rwa [if_neg hn] at h)

theorem digitChar_lt10_isDigit : ∀ d, d < 10 → (Nat.digitChar d).isDigit = true := by
  decide

theorem digitChar_lt10_ne_dot : ∀ d, d < 10 → Nat.digitChar d ≠ '.' := by
  decide

theorem twoDecimalCheck_skip {pre rest : List Char}
    (h : ∀ c ∈ pre, c ≠ '.') :
    twoDecimalCheck (pre ++ rest) = twoDecimalCheck rest := by
  induction pre with
  | nil => rfl
  | cons c pre ih =>
    have hc : c ≠ '.' := h c (List.mem_cons_self c pre)
    rw [List.cons_append, twoDecimalCheck, if_neg hc]
    exact ih (fun x hx => h x (List.mem_cons_of_mem c hx))

theorem toFixed2_two_decimals (q : ℚ) :
    hasTwoDecimalDigits (toFixed2 q) = true := by
  show twoDecimalCheck (toFixed2Chars q) = true
  rw [toFixed2Chars, List.append_assoc]
  have hsign : ∀ c ∈ (if q < 0 then ['-'] else []), c ≠ '.' := by
    intro c hc
    by_cases hq : q < 0
    · rw [if_pos hq] at hc
      simp only [List.mem_singleton] at hc
      rw [hc]; decide
    · rw [if_neg hq] at hc
      exact absurd hc (List.not_mem_nil c)
  have hint : ∀ c ∈ natChars (fixedN q / 100), c ≠ '.' := by
    intro c hc
    obtain ⟨d, hd, rfl⟩ := natChars_mem hc
    exact digitChar_lt10_ne_dot d hd
  rw [twoDecimalCheck_skip hsign, twoDecimalCheck_skip hint,
    twoDecimalCheck, if_pos rfl]
  have h1 := digitChar_lt10_isDigit (fixedN q / 10 % 10) (Nat.mod_lt _ (by decide))
  have h2 := digitChar_lt10_isDigit (fixedN q % 10) (Nat.mod_lt _ (by decide))
  simp [h1, h2]


theorem objGet_map_replace {β : Type} (o : List (String × β)) (k : String) (v : β) :
    objGet (o.map (fun p => if p.1 = k then (k, v) else p)) k
      = if (objGet o k).isSome then some v else none := by
  induction o with
  | nil => rfl
  | cons p o ih =>
    rcases p with ⟨k1, v1⟩
    by_cases h : k1 = k
    · rw [List.map_cons, if_pos h]
      rw [objGet, if_pos rfl]
      rw [show objGet ((k1, v1) :: o) k = some v1 from by rw [objGet, if_pos h]]
      rfl
    · rw [List.map_cons, if_neg h]
      rw [objGet, if_neg h]
      rw [show objGet ((k1, v1) :: o) k = objGet o k from by rw [objGet, if_neg h]]
      exact ih

theorem objGet_append_single {β : Type} (o : List (String × β)) (k : String) (v : β)
    (h : objGet o k = none) :
    objGet (o ++ [(k, v)]) k = some v := by
  induction o with
  | nil => rw [List.nil_append, objGet, if_pos rfl]
  | cons p o ih =>
    rcases p with ⟨k1, v1⟩
    rw [objGet] at h
    by_cases h1 : k1 = k
    · rw [if_pos h1] at h
      exact absurd h (by simp)
    · rw [if_neg h1] at h
      rw [List.cons_append, objGet, if_neg h1]
      exact ih h

theorem objGet_objUpd_self {β : Type} (o : List (String × β)) (k : String) (v : β) :
    objGet (objUpd o k v) k = some v := by
  rw [objUpd]
  rcases hg : objGet o k with _ | w
  · simp only [Option.isSome_none, Bool.false_eq_true, if_false]
    exact objGet_append_single o k v hg
  · simp only [Option.isSome_some, if_true]
    rw [objGet_map_replace, hg]
    rfl

theorem objGet_map_replace_ne {β : Type} (o : List (String × β)) (k k2 : String)
    (v : β) (h : k2 ≠ k) :
    objGet (o.map (fun p => if p.1 = k then (k, v) else p)) k2 = objGet o k2 := by
  induction o with
  | nil => rfl
  | cons p o ih =>
    rcases p with ⟨k1, v1⟩
    by_cases h1 : k1 = k
    · rw [List.map_cons, if_pos h1, objGet, objGet]
      have e1 : ¬ (k = k2) := fun hk => h hk.symm
      have e2 : ¬ (k1 = k2) := fun hk => h (by rw [← hk, h1])
      rw [if_neg e1, if_neg e2]
      exact ih
    · rw [List.map_cons, if_neg h1, objGet, objGet]
      by_cases h2 : k1 = k2
      · rw [if_pos h2, if_pos h2]
      · rw [if_neg h2, if_neg h2]
        exact ih

theorem objGet_append_single_ne {β : Type} (o : List (String × β)) (k k2 : String)
    (v : β) (h : k2 ≠ k) :
    objGet (o ++ [(k, v)]) k2 = objGet o k2 := by
  induction o with
  | nil =>
    rw [List.nil_append]
    show (if k = k2 then some v else objGet ([] : List (String × β)) k2)
      = objGet ([] : List (String × β)) k2
    rw [if_neg (fun hk => h hk.symm)]
  | cons p o ih =>
    rcases p with ⟨k1, v1⟩
    rw [List.cons_append, objGet, objGet]
    by_cases h2 : k1 = k2
    · rw [if_pos h2, if_pos h2]
    · rw [if_neg h2, if_neg h2]
      exact ih

theorem objGet_objUpd_ne {β : Type} (o : List (String × β)) (k k2 : String) (v : β)
    (h : k2 ≠ k) :
    objGet (objUpd o k v) k2 = objGet o k2 := by
  rw [objUpd]
  by_cases hc : (objGet o k).isSome = true
  · rw [if_pos hc]
    exact objGet_map_replace_ne o k k2 v h
  · rw [if_neg hc]
    exact objGet_append_single_ne o k k2 v h

theorem objUpd_keys {β : Type} (o : List (String × β)) (k : String) (v : β) :
    (objUpd o k v).map Prod.fst =
      if (objGet o k).isSome then o.map Prod.fst
      else o.map Prod.fst ++ [k] := by
  rw [objUpd]
  by_cases hc : (objGet o k).isSome = true
  · rw [if_pos hc, if_pos hc, List.map_map]
    apply List.map_congr_left
    intro p _
    by_cases h : p.1 = k
    · simp [h]
    · simp [h]
  · rw [if_neg hc, if_neg hc, List.map_append]
    rfl

theorem mem_objUpd {β : Type} {o : List (String × β)} {k : String} {v : β}
    {e : String × β} (h : e ∈ objUpd o k v) : e ∈ o ∨ e = (k, v) := by
  rw [objUpd] at h
  by_cases hc : (objGet o k).isSome = true
  · rw [if_pos hc] at h
    obtain ⟨p, hp, he⟩ := List.mem_map.mp h
    by_cases h1 : p.1 = k
    · rw [if_pos h1] at he
      right; exact he.symm
    · rw [if_neg h1] at he
      left; exact he ▸ hp
  · rw [if_neg hc, List.mem_append] at h
    rcases h with h | h
    · left; exact h
    · right; exact List.mem_singleton.mp h

theorem walkLoop_eq_twoSteps {α : Type} (oracle : Nat → PageResp α) (f : Nat) :
    walkLoop oracle (f + 2) 0 (.arr []) none = walkTwoSteps oracle := by
  rcases h0 : (oracle 0).data with _ | l
  · simp [walkLoop, walkTwoSteps, h0]
  · rcases l with _ | ⟨x, xs⟩
    · simp [walkLoop, walkTwoSteps, h0]
    · by_cases hlen : (x :: xs).length < 20
      · simp [walkLoop, walkTwoSteps, h0, jsPushAssign, hlen]
      · rcases h1 : (oracle 1).data with _ | ⟨_ | ⟨y, ys⟩⟩ <;>
          simp [walkLoop, walkTwoSteps, h0, h1, jsPushAssign, hlen]

theorem walkLoop_first_empty {α : Type} (oracle : Nat → PageResp α) (f : Nat)
    (acc : JSAcc α) (last : Option String)
    (h : (oracle 0).data = none ∨ (oracle 0).data = some []) :
    walkLoop oracle (f + 1) 0 acc last = .done acc 1 := by
  rcases h with h | h <;> simp [walkLoop, h]

theorem pagesTotal_ge_first {α : Type} (oracle : Nat → PageResp α) (n : Nat) :
    pageLen (oracle 0) ≤ pagesTotal oracle (n + 1) := by
  induction n with
  | zero => simp [pagesTotal]
  | succ n ih =>
    rw [show n + 1 + 1 = (n + 1) + 1 from rfl, pagesTotal]
    exact le_trans ih (Nat.le_add_right _ _)

theorem enrichRoomsAux_getElem (sub : Nat → Option CodesResp)
    (rs : List Room) (i j : Nat) :
    (enrichRoomsAux sub i rs)[j]? = (rs[j]?).map (fun r => enrichRoom r (sub (i + j))) := by
  induction rs generalizing i j with
  | nil => simp [enrichRoomsAux]
  | cons r rs ih =>
    rcases j with _ | j
    · simp [enrichRoomsAux]
    · rw [enrichRoomsAux]
      rw [List.getElem?_cons_succ, List.getElem?_cons_succ, ih]
      have : i + 1 + j = i + (j + 1) := by omega
      rw [this]

theorem enrichRoom_frame (room : Room) (sub : Option CodesResp) (k : String)
    (hk1 : k ≠ "guest_room_codes") (hk2 : k ≠ "error_fetching_codes") :
    objGet (enrichRoom room sub) k = objGet room k := by
  rcases sub with _ | resp
  · rw [enrichRoom, objGet_objUpd_ne _ _ _ _ hk2, objGet_objUpd_ne _ _ _ _ hk1]
  · rw [enrichRoom, objGet_objUpd_ne _ _ _ _ hk1]

theorem enrichRoom_failure_fields (room : Room) :
    objGet (enrichRoom room none) "guest_room_codes" = some (.codes [])
    ∧ objGet (enrichRoom room none) "error_fetching_codes"
        = some (.prim "Failed to retrieve room codes") := by
  constructor
  · rw [enrichRoom, objGet_objUpd_ne _ _ _ _ (by decide), objGet_objUpd_self]
  · rw [enrichRoom, objGet_objUpd_self]

theorem objGet_isSome_iff_mem_keys {β : Type} (o : List (String × β)) (k : String) :
    (objGet o k).isSome = true ↔ k ∈ o.map Prod.fst := by
  induction o with
  | nil => simp [objGet]
  | cons p o ih =>
    rcases p with ⟨k1, v1⟩
    by_cases h : k1 = k
    · subst h
      simp [objGet]
    · rw [objGet, if_neg h, List.map_cons]
      simp only [List.mem_cons, ih]
      constructor
      · intro hk
        exact Or.inr hk
      · rintro (hk | hk)
        · exact absurd hk.symm h
        · exact hk

theorem foldl_aggStep_keys (l : List Peer) (acc : List (String × UserEntry)) :
    (l.foldl aggStep acc).map Prod.fst
      = acc.map Prod.fst ++ addNew (acc.map Prod.fst) (l.map Peer.user_id) := by
  induction l generalizing acc with
  | nil => simp [addNew]
  | cons p l ih =>
    rw [List.foldl_cons, ih, List.map_cons, addNew]
    by_cases hc : (objGet acc p.user_id).isSome = true
    · have hmem : p.user_id ∈ acc.map Prod.fst :=
        (objGet_isSome_iff_mem_keys _ _).mp hc
      rw [aggStep, objUpd_keys, if_pos hc, if_pos hmem]
    · have hmem : p.user_id ∉ acc.map Prod.fst := fun hm =>
        hc ((objGet_isSome_iff_mem_keys _ _).mpr hm)
      rw [aggStep, objUpd_keys, if_neg hc, if_neg hmem,
        List.append_assoc, List.singleton_append]

theorem foldl_aggStep_entry_key (l : List Peer) (acc : List (String × UserEntry))
    (hinv : ∀ e ∈ acc, (Prod.snd e).user_id = Prod.fst e) :
    ∀ e ∈ l.foldl aggStep acc, (Prod.snd e).user_id = Prod.fst e := by
  induction l generalizing acc with
  | nil => exact hinv
  | cons p l ih =>
    rw [List.foldl_cons]
    apply ih
    intro e he
    rw [aggStep] at he
    rcases mem_objUpd he with h | h
    · exact hinv e h
    · rw [h]

/-- C1: the claim states that two peer entries for the same user_id with
durations 5.005 and 2.0 minutes yield one summary entry with duration 7.01;
evaluating the code on exactly that session shows the single summary entry
instead carries the string value [object Object]2, because the accumulator
stores the whole entry object and object + number is string concatenation in
JavaScript, and the later toFixed call on the concatenated total then throws,
so the endpoint answers HTTP 500 rather than returning the summary. -/
theorem c1_duplicate_user_string_concat :
    userDurationList sessionC1.peers
      = [{ name := "alice2", user_id := "u1",
           duration := JSVal.str "[object Object]2" }]
    ∧ userDurationList sessionC1.peers
        ≠ [{ name := "alice2", user_id := "u1",
             duration := JSVal.num (701 / 100) }]
    ∧ sessionAnalyticsHandler respC1 = .serverError := by
  refine ⟨?_, ?_, ?_⟩ <;> with_unfolding_all decide

/-- C2: the claim states the walker issues exactly k+1 requests and returns
k+1 nested page groups; evaluating the code shows that with zero full pages
and one short page of one item the response body is the number 1 and not a
one-group array, that with one full page followed by a non-empty page the
endpoint answers HTTP 500, and that with two full pages only 2 requests are
issued instead of 3, because the push assignment replaces the accumulator
array by the numeric return value of push. -/
theorem c2_push_assignment_breaks_walker :
    sessionListHandler oracleC2short 5 = .ok (.num 1)
    ∧ sessionListHandler oracleC2short 5 ≠ .ok (.arr [[7]])
    ∧ sessionListHandler oracleC2full 5 = .serverError
    ∧ reqsOf (walkLoop oracleC2two 9 0 (.arr []) none) = 2 := by
  refine ⟨?_, ?_, ?_, ?_⟩ <;> decide

/-- C3: when the enrichment sub-request for item i fails and all others
succeed, every item other than i is enriched exactly as in the failure-free
run, item i gets empty guest_room_codes plus the error_fetching_codes
marker, and the endpoint still answers HTTP 200. -/
theorem c3_partial_failure_isolation (rooms : List Room) (i : Nat)
    (f g : Nat → Option CodesResp)
    (hfi : f i = none)
    (hagree : ∀ j, j ≠ i → f j = g j)
    (_hg : ∀ j, g j ≠ none) :
    (∀ j, j ≠ i → (enrichRooms rooms f)[j]? = (enrichRooms rooms g)[j]?)
    ∧ (∀ room, rooms[i]? = some room →
        ∃ er, (enrichRooms rooms f)[i]? = some er
          ∧ objGet er "guest_room_codes" = some (.codes [])
          ∧ objGet er "error_fetching_codes"
              = some (.prim "Failed to retrieve room codes"))
    ∧ (∀ env : RoomsEnvelope, ∃ body, listRoomsEndpoint (some env) f = .ok body) := by
  refine ⟨?_, ?_, ?_⟩
  · intro j hj
    rw [enrichRooms, enrichRooms, enrichRoomsAux_getElem, enrichRoomsAux_getElem,
      Nat.zero_add, hagree j hj]
  · intro room hroom
    refine ⟨enrichRoom room none, ?_, (enrichRoom_failure_fields room).1,
      (enrichRoom_failure_fields room).2⟩
    rw [enrichRooms, enrichRoomsAux_getElem, Nat.zero_add, hroom, hfi]
    rfl
  · intro env
    exact ⟨_, rfl⟩

/-- Witness for the partial-failure isolation theorem at a concrete two-room
collection whose sub-request at position 0 fails. -/
theorem c3_witness :
    subF 0 = none
    ∧ (∃ er, (enrichRooms [roomX, roomY] subF)[0]? = some er
        ∧ objGet er "guest_room_codes" = some (.codes [])
        ∧ objGet er "error_fetching_codes"
            = some (.prim "Failed to retrieve room codes")) :=
  ⟨rfl, (c3_partial_failure_isolation [roomX, roomY] 0 subF subG rfl
      (fun j hj => by simp [subF, subG, hj])
      (fun j => by simp [subG])).2.1 roomX rfl⟩

/-- C4: the claim states the per-peer rounding is round half away from zero
for negative as well as positive durations; on the fixture peer with
duration -2.005 minutes the code yields -2 while rounding half away from
zero yields -2.01, so the claim is false on negative durations. -/
theorem c4_rounding_counterexample :
    peerRoundedDuration peerNeg ≠ roundHalfAwayFromZero2 (peerMinutes peerNeg)
    ∧ peerRoundedDuration peerNeg = -2
    ∧ roundHalfAwayFromZero2 (peerMinutes peerNeg) = -(201 / 100) := by
  refine ⟨?_, ?_, ?_⟩ <;> with_unfolding_all decide

/-- C4 amended: every per-peer duration is minutes from joined_at to left_at
rounded to 2 decimal places with half-values toward positive infinity, a rule
that agrees with round half away from zero on all nonnegative durations and
rounds negative half-values toward zero instead. -/
theorem c4_rounding_amended :
    (∀ p : Peer, peerRoundedDuration p = roundHalfUp2 (peerMinutes p))
    ∧ (∀ q : ℚ, 0 ≤ q → roundHalfUp2 q = roundHalfAwayFromZero2 q) := by
  constructor
  · intro p
    rfl
  · intro q hq
    rw [roundHalfUp2, roundHalfAwayFromZero2, if_pos hq]

/-- Witness applying the amended rounding theorem at the fixture peer and at
the nonnegative value one half. -/
theorem c4_rounding_amended_witness :
    peerRoundedDuration peerNeg = roundHalfUp2 (peerMinutes peerNeg)
    ∧ (0 : ℚ) ≤ 1/2 ∧ roundHalfUp2 (1/2) = roundHalfAwayFromZero2 (1/2) :=
  ⟨c4_rounding_amended.1 peerNeg, by norm_num,
    c4_rounding_amended.2 (1/2) (by norm_num)⟩

/-- C5: with an upstream session-list response of zero items the analytics
endpoint answers with the not-found outcome and runs no aggregation, and the
not-found outcome arises in exactly that case. -/
theorem c5_empty_list_not_found (resp : SessionListResponse) :
    (resp.data = [] → sessionAnalyticsHandler resp = .notFound)
    ∧ (sessionAnalyticsHandler resp = .notFound → resp.data = []) := by
  constructor
  · intro h
    simp [sessionAnalyticsHandler, h]
  · intro h
    rcases hd : resp.data with _ | ⟨s, rest⟩
    · rfl
    · exfalso
      simp only [sessionAnalyticsHandler, hd] at h
      rcases htf : jsToFixed2 (totalPeerDurationVal (userDurationList s.peers))
        with _ | t <;> simp [htf] at h

/-- Witness for the empty-list claim at the empty fixture response. -/
theorem c5_witness :
    respC5.data = [] ∧ sessionAnalyticsHandler respC5 = .notFound :=
  ⟨rfl, (c5_empty_list_not_found respC5).1 rfl⟩

/-- C6: whenever upstream page m is the first page with fewer than 20 items,
the walker loop terminates, issues at most total items divided by 20 rounded
up plus one requests, and issues no request beyond the short page even if a
continuation cursor was returned. -/
theorem c6_walker_termination {α : Type} (oracle : Nat → PageResp α)
    (m fuel : Nat)
    (hshort : pageLen (oracle m) < 20)
    (hfull : ∀ j, j < m → 20 ≤ pageLen (oracle j))
    (hfuel : (pagesTotal oracle (m + 1) + 19) / 20 + 1 ≤ fuel) :
    walkLoop oracle fuel 0 (.arr []) none ≠ .fuelOut
    ∧ reqsOf (walkLoop oracle fuel 0 (.arr []) none)
        ≤ (pagesTotal oracle (m + 1) + 19) / 20 + 1
    ∧ reqsOf (walkLoop oracle fuel 0 (.arr []) none) ≤ m + 1 := by
  rcases m with _ | m'
  · rcases h0 : (oracle 0).data with _ | l
    · obtain ⟨f, rfl⟩ : ∃ f, fuel = f + 1 := ⟨fuel - 1, by omega⟩
      rw [walkLoop_first_empty oracle f _ _ (Or.inl h0)]
      refine ⟨by simp, by simp [reqsOf], by simp [reqsOf]⟩
    · rcases l with _ | ⟨x, xs⟩
      · obtain ⟨f, rfl⟩ : ∃ f, fuel = f + 1 := ⟨fuel - 1, by omega⟩
        rw [walkLoop_first_empty oracle f _ _ (Or.inr h0)]
        refine ⟨by simp, by simp [reqsOf], by simp [reqsOf]⟩
      · have hlen : (x :: xs).length < 20 := by
          simpa only [pageLen, h0] using hshort
        have htot : 1 ≤ pagesTotal oracle (0 + 1) := by
          simp only [pagesTotal, pageLen, h0]
          simp
        have hfuel2 : 2 ≤ fuel := by
          have hdiv : 1 ≤ (pagesTotal oracle (0 + 1) + 19) / 20 := by omega
          omega
        obtain ⟨f, rfl⟩ : ∃ f, fuel = f + 2 := ⟨fuel - 2, by omega⟩
        rw [walkLoop_eq_twoSteps]
        simp only [walkTwoSteps, h0, if_pos hlen]
        refine ⟨by simp, by simp [reqsOf], by simp [reqsOf]⟩
  · have h20 : 20 ≤ pageLen (oracle 0) := hfull 0 (Nat.succ_pos m')
    rcases h0 : (oracle 0).data with _ | l
    · simp [pageLen, h0] at h20
    · rcases l with _ | ⟨x, xs⟩
      · simp [pageLen, h0] at h20
      · have hxl : 20 ≤ (x :: xs).length := by
          simpa only [pageLen, h0] using h20
        have hlen : ¬ ((x :: xs).length < 20) := by omega
        have htot : 20 ≤ pagesTotal oracle (m' + 1 + 1) :=
          le_trans h20 (pagesTotal_ge_first oracle (m' + 1))
        have hfuel2 : 2 ≤ fuel := by
          have hdiv : 1 ≤ (pagesTotal oracle (m' + 1 + 1) + 19) / 20 := by omega
          omega
        obtain ⟨f, rfl⟩ : ∃ f, fuel = f + 2 := ⟨fuel - 2, by omega⟩
        rw [walkLoop_eq_twoSteps]
        have hb : 2 ≤ (pagesTotal oracle (m' + 1 + 1) + 19) / 20 + 1 := by
          omega
        rcases h1 : (oracle 1).data with _ | ⟨_ | ⟨y, ys⟩⟩ <;>
          simp only [walkTwoSteps, h0, h1, if_neg hlen] <;>
          exact ⟨by simp, by simp only [reqsOf]; omega, by simp only [reqsOf]; omega⟩

/-- Witness for the termination theorem at a one-page upstream whose single
page holds one item, with the fuel exactly at the claimed bound. -/
theorem c6_witness :
    pageLen (oracleC6 0) < 20
    ∧ (pagesTotal oracleC6 (0 + 1) + 19) / 20 + 1 ≤ 2
    ∧ (walkLoop oracleC6 2 0 (.arr []) none ≠ .fuelOut
       ∧ reqsOf (walkLoop oracleC6 2 0 (.arr []) none)
           ≤ (pagesTotal oracleC6 (0 + 1) + 19) / 20 + 1
       ∧ reqsOf (walkLoop oracleC6 2 0 (.arr []) none) ≤ 0 + 1) :=
  ⟨by decide, by decide,
    c6_walker_termination oracleC6 0 2 (by decide)
      (fun j hj => absurd hj (Nat.not_lt_zero j)) (by decide)⟩

/-- C8: with a non-empty short first page the endpoint returns the number 1
as its body; with a 20-item first page followed by a non-empty page it
answers HTTP 500; an array body arises exactly for an empty or absent first
page and is then the empty array. -/
theorem c8_push_returns_length {α : Type} (oracle : Nat → PageResp α)
    (fuel : Nat) (hfuel : 2 ≤ fuel) :
    (∀ x xs, (oracle 0).data = some (x :: xs) → (x :: xs).length < 20 →
        sessionListHandler oracle fuel = .ok (.num 1))
    ∧ (∀ l y ys, (oracle 0).data = some l → l.length = 20 →
        (oracle 1).data = some (y :: ys) →
        sessionListHandler oracle fuel = .serverError)
    ∧ (∀ v, sessionListHandler oracle fuel = .ok (.arr v) →
        ((oracle 0).data = none ∨ (oracle 0).data = some []) ∧ v = [])
    ∧ (((oracle 0).data = none ∨ (oracle 0).data = some []) →
        sessionListHandler oracle fuel = .ok (.arr [])) := by
  obtain ⟨f, rfl⟩ : ∃ f, fuel = f + 2 := ⟨fuel - 2, by omega⟩
  refine ⟨?_, ?_, ?_, ?_⟩
  · intro x xs h0 hlen
    have hlen2 : xs.length + 1 < 20 := by simpa using hlen
    rw [sessionListHandler, walkLoop_eq_twoSteps]
    simp [walkTwoSteps, h0, hlen2]
  · intro l y ys h0 hl h1
    rcases l with _ | ⟨x, xs⟩
    · simp at hl
    · have hlen2 : ¬ (xs.length + 1 < 20) := by
        simp only [List.length_cons] at hl
        omega
      rw [sessionListHandler, walkLoop_eq_twoSteps]
      simp [walkTwoSteps, h0, h1, hlen2]
  · intro v hv
    rcases h0 : (oracle 0).data with _ | ⟨_ | ⟨x, xs⟩⟩
    · refine ⟨Or.inl rfl, ?_⟩
      rw [sessionListHandler, walkLoop_eq_twoSteps] at hv
      simp only [walkTwoSteps, h0] at hv
      simp only [ListResponse.ok.injEq, JSAcc.arr.injEq] at hv
      exact hv.symm
    · refine ⟨Or.inr rfl, ?_⟩
      rw [sessionListHandler, walkLoop_eq_twoSteps] at hv
      simp only [walkTwoSteps, h0] at hv
      simp only [ListResponse.ok.injEq, JSAcc.arr.injEq] at hv
      exact hv.symm
    · exfalso
      rw [sessionListHandler, walkLoop_eq_twoSteps] at hv
      by_cases hlen : xs.length + 1 < 20
      · simp only [walkTwoSteps, h0, List.length_cons, if_pos hlen] at hv
        simp at hv
      · rcases h1 : (oracle 1).data with _ | ⟨_ | _⟩ <;>
          simp only [walkTwoSteps, h0, h1, List.length_cons, if_neg hlen] at hv <;>
          simp at hv
  · intro h
    rw [sessionListHandler, walkLoop_eq_twoSteps]
    rcases h with h | h <;> simp [walkTwoSteps, h]

/-- Witness for the push-bug theorem at a one-item single-page upstream. -/
theorem c8_witness :
    (oracleC8 0).data = some [()] ∧ ([()] : List Unit).length < 20
    ∧ sessionListHandler oracleC8 2 = .ok (.num 1) :=
  ⟨rfl, by decide,
    (c8_push_returns_length oracleC8 2 (by decide)).1 () [] rfl (by decide)⟩

theorem mem_insertByIdx {β : Type} {x p : Nat × β} {l : List (Nat × β)}
    (h : x ∈ insertByIdx p l) : x = p ∨ x ∈ l := by
  induction l with
  | nil =>
    simp only [insertByIdx, List.mem_singleton] at h
    exact Or.inl h
  | cons q qs ih =>
    rw [insertByIdx] at h
    by_cases hlt : p.1 < q.1
    · rw [if_pos hlt] at h
      simp only [List.mem_cons] at h
      rcases h with h | h
      · exact Or.inl h
      · exact Or.inr (List.mem_cons.mpr h)
    · rw [if_neg hlt] at h
      simp only [List.mem_cons] at h
      rcases h with h | h
      · exact Or.inr (List.mem_cons.mpr (Or.inl h))
      · rcases ih h with h2 | h2
        · exact Or.inl h2
        · exact Or.inr (List.mem_cons.mpr (Or.inr h2))

theorem mem_sortByIdx {β : Type} {x : Nat × β} {l : List (Nat × β)}
    (h : x ∈ sortByIdx l) : x ∈ l := by
  induction l with
  | nil => simp [sortByIdx] at h
  | cons p ps ih =>
    rw [sortByIdx] at h
    rcases mem_insertByIdx h with h | h
    · rw [h]
      exact List.mem_cons_self p ps
    · exact List.mem_cons_of_mem p (ih h)

theorem mem_jsOrderedEntries {β : Type} {o : List (String × β)} {e : String × β}
    (he : e ∈ jsOrderedEntries o) : e ∈ o := by
  rw [jsOrderedEntries, List.mem_append] at he
  rcases he with he | he
  · obtain ⟨q, hq, hqe⟩ := List.mem_map.mp he
    obtain ⟨p, hp, hfp⟩ := List.mem_filterMap.mp (mem_sortByIdx hq)
    rcases ha : arrayIndexVal p.1 with _ | n
    · rw [ha] at hfp
      exact absurd hfp (by simp)
    · rw [ha] at hfp
      simp only [Option.map_some', Option.some.injEq] at hfp
      rw [← hqe, ← hfp]
      exact hp
  · exact List.mem_of_mem_filter he

theorem insertByIdx_map {β γ : Type} (f : β → γ) (p : Nat × β) (l : List (Nat × β)) :
    insertByIdx (p.1, f p.2) (l.map (fun q => (q.1, f q.2)))
      = (insertByIdx p l).map (fun q => (q.1, f q.2)) := by
  induction l with
  | nil => rfl
  | cons q qs ih =>
    rw [List.map_cons, insertByIdx, insertByIdx]
    by_cases hlt : p.1 < q.1
    · rw [if_pos hlt, if_pos hlt, List.map_cons, List.map_cons]
    · rw [if_neg hlt, if_neg hlt, List.map_cons, ih]

theorem sortByIdx_map {β γ : Type} (f : β → γ) (l : List (Nat × β)) :
    sortByIdx (l.map (fun q => (q.1, f q.2)))
      = (sortByIdx l).map (fun q => (q.1, f q.2)) := by
  induction l with
  | nil => rfl
  | cons p ps ih =>
    simp only [List.map_cons, sortByIdx]
    rw [ih, insertByIdx_map]

theorem jsOrderedEntries_keys {β : Type} (o : List (String × β)) :
    (jsOrderedEntries o).map Prod.fst = jsKeyOrder (o.map Prod.fst) := by
  rw [jsOrderedEntries, jsKeyOrder, List.map_append]
  congr 1
  · rw [List.map_map]
    have hL : (o.map Prod.fst).filterMap (fun k => (arrayIndexVal k).map (fun n => (n, k)))
        = (o.filterMap (fun p => (arrayIndexVal p.1).map (fun n => (n, p)))).map
            (fun q => (q.1, q.2.1)) := by
      rw [List.filterMap_map, List.map_filterMap]
      congr 1
      funext x
      show (arrayIndexVal x.1).map (fun n => (n, x.1))
        = Option.map (fun q => (q.1, q.2.1)) ((arrayIndexVal x.1).map (fun n => (n, x)))
      rcases arrayIndexVal x.1 with _ | n <;> rfl
    rw [hL, sortByIdx_map Prod.fst, List.map_map]
    rfl
  · rw [List.filter_map]
    rfl

theorem jsKeyOrder_no_index (ks : List String)
    (h : ∀ k ∈ ks, arrayIndexVal k = none) : jsKeyOrder ks = ks := by
  rw [jsKeyOrder]
  have h1 : (ks.filterMap fun k => (arrayIndexVal k).map (fun n => (n, k))) = [] := by
    induction ks with
    | nil => rfl
    | cons k ks ih =>
      rw [List.filterMap_cons_none (by rw [h k (List.mem_cons_self k ks)]; rfl)]
      exact ih (fun x hx => h x (List.mem_cons_of_mem k hx))
  have h2 : ks.filter (fun k => (arrayIndexVal k).isNone) = ks := by
    apply List.filter_eq_self.mpr
    intro a ha
    rw [h a ha]
    rfl
  rw [h1, h2]
  rfl

theorem mem_addNew {x : String} (seen l : List String)
    (h : x ∈ addNew seen l) : x ∈ l := by
  induction l generalizing seen with
  | nil => simp [addNew] at h
  | cons y ys ih =>
    rw [addNew] at h
    by_cases hy : y ∈ seen
    · rw [if_pos hy] at h
      exact List.mem_cons_of_mem y (ih _ h)
    · rw [if_neg hy] at h
      rcases List.mem_cons.mp h with h | h
      · rw [h]
        exact List.mem_cons_self y ys
      · exact List.mem_cons_of_mem y (ih _ h)

/-- C9: the claim asserts the per-user output order always equals the order
of first occurrence of each distinct user_id; but with user_ids 1 then 0,
both array-index strings, Object.values enumerates the keyed accumulator in
ascending numeric key order 0 then 1, so the claim is false as stated. -/
theorem c9_index_keys_counterexample :
    (userDurationList [peerIdx1, peerIdx0]).map UserEntry.user_id = ["0", "1"]
    ∧ firstOccurrences ([peerIdx1, peerIdx0].map Peer.user_id) = ["1", "0"]
    ∧ (userDurationList [peerIdx1, peerIdx0]).map UserEntry.user_id
        ≠ firstOccurrences ([peerIdx1, peerIdx0].map Peer.user_id) := by
  refine ⟨?_, ?_, ?_⟩ <;> with_unfolding_all decide

/-- C9 amended: the per-user output order is deterministic: it is the own
property enumeration order of the distinct user_ids, namely array-index-like
user_ids first in ascending numeric order followed by the remaining user_ids
in order of first occurrence; in particular, when no user_id is an
array-index string it is exactly the order of first occurrence. -/
theorem c9_enumeration_order (peers : List Peer) :
    (userDurationList peers).map UserEntry.user_id
      = jsKeyOrder (firstOccurrences (peers.map Peer.user_id))
    ∧ ((∀ u ∈ peers.map Peer.user_id, arrayIndexVal u = none) →
        (userDurationList peers).map UserEntry.user_id
          = firstOccurrences (peers.map Peer.user_id)) := by
  have hkeys : (detailsByUser peers).map Prod.fst
      = firstOccurrences (peers.map Peer.user_id) := by
    rw [detailsByUser, foldl_aggStep_keys, firstOccurrences]
    simp
  have hmain : (userDurationList peers).map UserEntry.user_id
      = jsKeyOrder (firstOccurrences (peers.map Peer.user_id)) := by
    rw [userDurationList, jsObjectValues, List.map_map]
    have hinv : ∀ e ∈ jsOrderedEntries (detailsByUser peers),
        (UserEntry.user_id ∘ Prod.snd) e = Prod.fst e := by
      intro e he
      exact foldl_aggStep_entry_key peers []
        (by intro x hx; exact absurd hx (List.not_mem_nil x)) e
        (mem_jsOrderedEntries he)
    rw [List.map_congr_left hinv, jsOrderedEntries_keys, hkeys]
  refine ⟨hmain, ?_⟩
  intro hno
  rw [hmain]
  apply jsKeyOrder_no_index
  intro k hk
  exact hno k (mem_addNew [] _ hk)

/-- Witness applying the amended enumeration-order theorem at the session
with two entries for the non-index user_id u1. -/
theorem c9_enumeration_order_witness :
    (∀ u ∈ [peerA, peerB].map Peer.user_id, arrayIndexVal u = none)
    ∧ (userDurationList [peerA, peerB]).map UserEntry.user_id
        = firstOccurrences ([peerA, peerB].map Peer.user_id) :=
  ⟨by with_unfolding_all decide,
    (c9_enumeration_order [peerA, peerB]).2 (by with_unfolding_all decide)⟩

/-- C10: enrichment adds only guest_room_codes and, on failure,
error_fetching_codes: every other field of every room is unchanged, and
every envelope field other than data passes through unchanged. -/
theorem c10_enrichment_frame (rooms : List Room) (sub : Nat → Option CodesResp)
    (j : Nat) (room : Room) (k : String)
    (hr : rooms[j]? = some room)
    (hk1 : k ≠ "guest_room_codes") (hk2 : k ≠ "error_fetching_codes") :
    (∃ er, (enrichRooms rooms sub)[j]? = some er
        ∧ objGet er k = objGet room k)
    ∧ (∀ env : RoomsEnvelope, (listRoomsHandler env sub).rest = env.rest) := by
  constructor
  · refine ⟨enrichRoom room (sub j), ?_, enrichRoom_frame room (sub j) k hk1 hk2⟩
    rw [enrichRooms, enrichRoomsAux_getElem, Nat.zero_add, hr]
    rfl
  · intro env
    rcases henv : env.data with _ | rooms2
    · simp [listRoomsHandler, henv]
    · by_cases hlen : 0 < rooms2.length <;> simp [listRoomsHandler, henv, hlen]

/-- Witness for the frame theorem at a one-room collection whose sub-request
fails, checking the region field passes through. -/
theorem c10_witness :
    ([roomZ] : List Room)[0]? = some roomZ
    ∧ (∃ er, (enrichRooms [roomZ] subH)[0]? = some er
        ∧ objGet er "region" = objGet roomZ "region") :=
  ⟨rfl, (c10_enrichment_frame [roomZ] subH 0 roomZ "region" rfl
      (by decide) (by decide)).1⟩

/-- C7: every successful analytics response renders total_peer_duration and
session_duration with exactly two decimal digits, also on integral values. -/
theorem c7_two_decimal_rendering (resp : SessionListResponse)
    (p : AnalyticsPayload) (h : sessionAnalyticsHandler resp = .ok p) :
    hasTwoDecimalDigits p.total_peer_duration = true
    ∧ hasTwoDecimalDigits p.session_duration = true := by
  rcases hd : resp.data with _ | ⟨s, rest⟩
  · simp [sessionAnalyticsHandler, hd] at h
  · simp only [sessionAnalyticsHandler, hd] at h
    rcases hv : totalPeerDurationVal (userDurationList s.peers) with q | w
    · rw [hv] at h
      simp only [jsToFixed2] at h
      simp only [AnalyticsResult.ok.injEq] at h
      rw [← h]
      exact ⟨toFixed2_two_decimals q, toFixed2_two_decimals _⟩
    · rw [hv] at h
      simp only [jsToFixed2] at h
      exact absurd h (by simp)

set_option maxRecDepth 8192 in
/-- Witness for the formatting theorem at a one-peer session of 5.005 minutes
inside a 12-minute session record, rendering the strings 5.01 and 12.00. -/
theorem c7_witness :
    sessionAnalyticsHandler respC7 = .ok payloadC7
    ∧ (hasTwoDecimalDigits payloadC7.total_peer_duration = true
       ∧ hasTwoDecimalDigits payloadC7.session_duration = true) := by
  have h : sessionAnalyticsHandler respC7 = .ok payloadC7 := by
    with_unfolding_all decide
  exact ⟨h, c7_two_decimal_rendering respC7 payloadC7 h⟩
